import Mathlib

/-!
# Notes app: the note management engine of `src/App.jsx`

A shallow embedding of the state handlers of the `App` component
(`addNote`, `deleteNote`, `togglePin`, `editNote`, `handleCloseDialog`,
`addTag`, `removeTag`) and of the derived list `filteredNotes`, followed by
the properties of the note store, the tag editor and the view projection.

Modelling conventions.

* A JavaScript string is a `String`; the string methods used by the source
  (`trim`, `includes`) are defined on its list of characters.
* Ids are the numbers returned by `Date.now()`, a `Nat`. `editingId` is
  `null` or such a number, an `Option Nat`; the source tests it by
  truthiness (`if (editingId)`), for which `null` and `0` are both falsy.
* The two clock reads of `addNote`, `new Date().toLocaleString()` and
  `Date.now()`, are inputs of the handler.
* `String.prototype.toLowerCase` and the `Date` constructor belong to the
  JavaScript runtime, not to the repository: they are fields of `JsRuntime`.
  The time value of an Invalid Date is `NaN`, here `none`.
* `Array.prototype.sort` is modelled by the steps V8 takes on an array of
  fewer than 64 elements, run detection and binary insertion, with a `NaN`
  comparator result counted as `0`. It is a stable sort, the result
  ECMAScript prescribes for every engine when the comparator is consistent.
-/

namespace NotesApp

/-! ## Data model -/

/-- A note object, with the seven fields written by `addNote`. -/
structure Note where
  id : Nat
  title : String
  content : String
  tags : List String
  createdAt : String
  updatedAt : String
  isPinned : Bool
  deriving DecidableEq

/-- The `useState` cells of the `App` component. -/
structure AppState where
  notes : List Note
  title : String
  content : String
  tags : List String
  selectedTag : String
  editingId : Option Nat
  openDialog : Bool
  openDeleteConfirm : Option Nat
  searchQuery : String
  darkMode : Bool
  deriving DecidableEq

/-- Initial values of the `useState` cells (`darkMode` is read from storage). -/
def initialState (darkMode : Bool) : AppState :=
  { notes := [], title := "", content := "", tags := [], selectedTag := "",
    editingId := none, openDialog := false, openDeleteConfirm := none,
    searchQuery := "", darkMode := darkMode }

/-! ## JavaScript string primitives -/

/-- Code points removed by `String.prototype.trim`: ECMAScript `WhiteSpace`
(TAB, VT, FF, ZWNBSP and the category `Zs`) and `LineTerminator`. -/
def isJsWhiteSpace (c : Char) : Bool :=
  let n := c.toNat
  n == 0x09 || n == 0x0A || n == 0x0B || n == 0x0C || n == 0x0D || n == 0x20 ||
  n == 0xA0 || n == 0x1680 || (0x2000 ≤ n && n ≤ 0x200A) || n == 0x2028 ||
  n == 0x2029 || n == 0x202F || n == 0x205F || n == 0x3000 || n == 0xFEFF

/-- Characters of a trimmed string: white space dropped at both ends. -/
def trimChars (cs : List Char) : List Char :=
  ((cs.dropWhile isJsWhiteSpace).reverse.dropWhile isJsWhiteSpace).reverse

/-- The method `String.prototype.trim`. -/
def jsTrim (s : String) : String := ⟨trimChars s.data⟩

/-- Truthiness of a string value: every string but the empty one. -/
def strTruthy (s : String) : Bool := !s.data.isEmpty

/-- Truthiness of the `editingId` cell: `null` and `0` are falsy. The result
is the id when the cell is truthy. -/
def truthyId : Option Nat → Option Nat
  | some id => if id = 0 then none else some id
  | none => none

/-- Substring test on character lists: some suffix of the haystack starts
with the needle. -/
def includesChars (hay needle : List Char) : Bool :=
  hay.tails.any (fun t => needle.isPrefixOf t)

/-- The method `String.prototype.includes` (search from position 0). -/
def jsIncludes (s searchString : String) : Bool :=
  includesChars s.data searchString.data

/-- The parts of the JavaScript runtime the component calls and the
repository does not define. `toLowerCase` is `String.prototype.toLowerCase`
(a Unicode, context dependent mapping), which maps the empty string to
itself. `dateValue s` is the time value of `new Date(s)` in milliseconds,
`none` standing for `NaN` (an Invalid Date); its format support is
implementation defined. -/
structure JsRuntime where
  toLowerCase : String → String
  toLowerCase_empty : toLowerCase "" = ""
  dateValue : String → Option Int

/-! ## Note store handlers -/

/-- The object literal of the update branch of `addNote` (lines 66-74). -/
def updatedNote (s : AppState) (eid : Nat) (formattedDate : String) (note : Note) : Note :=
  { id := eid, title := s.title, content := s.content, tags := s.tags,
    createdAt := note.createdAt, updatedAt := formattedDate, isPinned := note.isPinned }

/-- The object literal of the create branch of `addNote` (lines 79-87). -/
def createdNote (s : AppState) (formattedDate : String) (dateNow : Nat) : Note :=
  { id := dateNow, title := s.title, content := s.content, tags := s.tags,
    createdAt := formattedDate, updatedAt := formattedDate, isPinned := false }

/-- The handler `addNote` (lines 58-94). `formattedDate` is the value of
`new Date().toLocaleString()` and `dateNow` the value of `Date.now()`. -/
def addNote (s : AppState) (formattedDate : String) (dateNow : Nat) : AppState :=
  if strTruthy (jsTrim s.title) || strTruthy (jsTrim s.content) then
    match truthyId s.editingId with
    | some eid =>
      { s with
        notes := s.notes.map (fun note =>
          if note.id = eid then updatedNote s eid formattedDate note else note),
        editingId := none,
        title := "", content := "", tags := [], openDialog := false }
    | none =>
      { s with
        notes := s.notes ++ [createdNote s formattedDate dateNow],
        title := "", content := "", tags := [], openDialog := false }
  else s

/-- The handler `deleteNote` (lines 96-99). -/
def deleteNote (s : AppState) (id : Nat) : AppState :=
  { s with notes := s.notes.filter (fun note => note.id != id),
           openDeleteConfirm := none }

/-- The handler `togglePin` (lines 101-105). -/
def togglePin (s : AppState) (id : Nat) : AppState :=
  { s with notes := s.notes.map (fun note =>
      if note.id = id then { note with isPinned := !note.isPinned } else note) }

/-- The handler `editNote` (lines 107-113). -/
def editNote (s : AppState) (note : Note) : AppState :=
  { s with title := note.title, content := note.content, tags := note.tags,
           editingId := some note.id, openDialog := true }

/-- The handler `handleCloseDialog` (lines 115-121). -/
def handleCloseDialog (s : AppState) : AppState :=
  { s with openDialog := false, title := "", content := "", tags := [],
           editingId := none }

/-! ## Tag editor handlers -/

/-- The handler `addTag` (lines 123-128): the text of the tag field is the
cell `selectedTag`. -/
def addTag (s : AppState) : AppState :=
  if strTruthy (jsTrim s.selectedTag) && !(s.tags.contains s.selectedTag) then
    { s with tags := s.tags ++ [s.selectedTag], selectedTag := "" }
  else s

/-- The handler `removeTag` (lines 130-132). -/
def removeTag (s : AppState) (tagToRemove : String) : AppState :=
  { s with tags := s.tags.filter (fun tag => tag != tagToRemove) }

/-! ## View projection -/

/-- The predicate of the `filter` call of `filteredNotes` (lines 136-139). -/
def matchesSearch (rt : JsRuntime) (searchQuery : String) (note : Note) : Bool :=
  jsIncludes (rt.toLowerCase note.title) (rt.toLowerCase searchQuery) ||
  jsIncludes (rt.toLowerCase note.content) (rt.toLowerCase searchQuery)

/-- The comparator of the `sort` call of `filteredNotes` (lines 140-147).
The result `none` is `NaN`: the difference of two `Date` objects one of
which is an Invalid Date. Only the sign of the difference is used. -/
def compareNotes (rt : JsRuntime) (a b : Note) : Option Int :=
  if a.isPinned != b.isPinned then
    some (if a.isPinned then -1 else 1)
  else
    match rt.dateValue b.createdAt, rt.dateValue a.createdAt with
    | some tb, some ta => some (tb - ta)
    | _, _ => none

/-- ECMAScript `SortCompare` with a comparator: a `NaN` result counts as `+0`. -/
def sortCompare (cmp : α → α → Option Int) (x y : α) : Int :=
  (cmp x y).getD 0

/-- The loop of `CountAndMakeRun`: the elements after `previous` that extend
the run, and the elements left over. A descending run is extended while the
next element compares below the previous one, any other run while it does
not. -/
def runSpan (cmp : α → α → Option Int) (isDescending : Bool) (previous : α) :
    List α → List α × List α
  | [] => ([], [])
  | current :: rest =>
    if isDescending then
      if 0 ≤ sortCompare cmp current previous then ([], current :: rest)
      else ((current :: (runSpan cmp isDescending current rest).1),
            (runSpan cmp isDescending current rest).2)
    else
      if sortCompare cmp current previous < 0 then ([], current :: rest)
      else ((current :: (runSpan cmp isDescending current rest).1),
            (runSpan cmp isDescending current rest).2)

/-- The search loop of `BinaryInsertionSort`: the index between `left` and
`right` at which `pivot` is put into `sorted`. The interval shrinks at every
turn, so `right - left` turns of `fuel` are enough. -/
def insertionPoint (cmp : α → α → Option Int) (pivot : α) (sorted : List α) :
    Nat → Nat → Nat → Nat
  | 0, left, _ => left
  | fuel + 1, left, right =>
    if left < right then
      match sorted[left + (right - left) / 2]? with
      | some e =>
        if sortCompare cmp pivot e < 0 then
          insertionPoint cmp pivot sorted fuel left (left + (right - left) / 2)
        else
          insertionPoint cmp pivot sorted fuel (left + (right - left) / 2 + 1) right
      | none => left
    else left

/-- One turn of the outer loop of `BinaryInsertionSort`. -/
def binaryInsert (cmp : α → α → Option Int) (sorted : List α) (pivot : α) : List α :=
  sorted.take (insertionPoint cmp pivot sorted sorted.length 0 sorted.length) ++
    pivot :: sorted.drop (insertionPoint cmp pivot sorted sorted.length 0 sorted.length)

/-- The method `Array.prototype.sort` with a comparator, as V8 runs it on an
array of fewer than 64 elements: `CountAndMakeRun` finds the run the array
starts with and reverses it when it is descending, then `BinaryInsertionSort`
puts in the remaining elements one by one. On a longer array V8 merges
several such runs, and returns the same list whenever the comparator is a
consistent one; ECMAScript leaves the order implementation defined when it
is not. -/
def jsSort (cmp : α → α → Option Int) : List α → List α
  | [] => []
  | [x] => [x]
  | x0 :: x1 :: rest =>
    if sortCompare cmp x1 x0 < 0 then
      (runSpan cmp true x1 rest).2.foldl (binaryInsert cmp)
        (x0 :: x1 :: (runSpan cmp true x1 rest).1).reverse
    else
      (runSpan cmp false x1 rest).2.foldl (binaryInsert cmp)
        (x0 :: x1 :: (runSpan cmp false x1 rest).1)

/-- The derived list `filteredNotes` (lines 135-147). -/
def filteredNotes (rt : JsRuntime) (notes : List Note) (searchQuery : String) : List Note :=
  jsSort (compareNotes rt) (notes.filter (matchesSearch rt searchQuery))

/-- The order the projection is required to have between pin groups: no
unpinned note stands before a pinned one. -/
def pinnedFirst (l : List Note) : Prop :=
  l.Pairwise (fun a b => b.isPinned = true → a.isPinned = true)

/-- The order the projection is required to have inside a pin group: the
time values of the `createdAt` strings never increase along the list. -/
def newestFirstInGroups (rt : JsRuntime) (l : List Note) : Prop :=
  l.Pairwise (fun a b => a.isPinned = b.isPinned →
    ∀ ta tb, rt.dateValue a.createdAt = some ta → rt.dateValue b.createdAt = some tb →
      tb ≤ ta)

/-- A runtime for the examples: ASCII lower-casing, and a `Date` constructor
that reads the two strings below, written in the ECMAScript date time string
format, and takes any other string for an Invalid Date. -/
def sampleRuntime : JsRuntime :=
  { toLowerCase := fun s => ⟨s.data.map Char.toLower⟩
    toLowerCase_empty := rfl
    dateValue := fun s =>
      if s = "2020-01-01T00:00:00.000Z" then some 1577836800000
      else if s = "2021-01-01T00:00:00.000Z" then some 1609459200000
      else none }

/-! ## Store operations and handler completion -/

/-- The four operations of the note store. A commit carries the draft and
the two clock reads available to `addNote`. -/
inductive StoreOp where
  | create (title content : String) (tags : List String)
      (formattedDate : String) (dateNow : Nat)
  | update (id : Nat) (title content : String) (tags : List String)
      (formattedDate : String) (dateNow : Nat)
  | delete (id : Nat)
  | togglePin (id : Nat)
  deriving DecidableEq

/-- The editor state in which a commit of the given draft runs. -/
def draftState (notes : List Note) (editingId : Option Nat) (title content : String)
    (tags : List String) : AppState :=
  { notes := notes, title := title, content := content, tags := tags, selectedTag := "",
    editingId := editingId, openDialog := true, openDeleteConfirm := none,
    searchQuery := "", darkMode := false }

/-- Effect of one store operation on the collection, through the handlers. -/
def applyOp (notes : List Note) : StoreOp → List Note
  | .create title content tags formattedDate dateNow =>
    (addNote (draftState notes none title content tags) formattedDate dateNow).notes
  | .update id title content tags formattedDate dateNow =>
    (addNote (draftState notes (some id) title content tags) formattedDate dateNow).notes
  | .delete id => (deleteNote (draftState notes none "" "" []) id).notes
  | .togglePin id => (togglePin (draftState notes none "" "" []) id).notes

/-- The collection after a sequence of operations on the empty store. -/
def runOps (ops : List StoreOp) : List Note :=
  ops.foldl applyOp []

/-- The id a store operation allocates: the `Date.now()` read of a commit
that reaches the create branch of `addNote`. -/
def allocatedId : StoreOp → Option Nat
  | .create title content _ _ dateNow =>
    if strTruthy (jsTrim title) || strTruthy (jsTrim content) then some dateNow else none
  | .update id title content _ _ dateNow =>
    if (strTruthy (jsTrim title) || strTruthy (jsTrim content)) && id = 0
    then some dateNow else none
  | .delete _ => none
  | .togglePin _ => none

/-- How a handler call ends: normally with the next state, or by throwing. -/
inductive Completion where
  | normal (next : AppState)
  | thrown (error : String)
  deriving DecidableEq

/-- Completion of a call of `addNote`: the body has no `throw` statement and
calls only total string and array methods, so every path completes normally. -/
def addNoteCompletion (s : AppState) (formattedDate : String) (dateNow : Nat) : Completion :=
  .normal (addNote s formattedDate dateNow)

/-! ## Helper lemmas -/

theorem strTruthy_eq_false_iff (s : String) : strTruthy s = false ↔ s = "" := by
  cases s with
  | mk cs =>
    cases cs with
    | nil => simp [strTruthy]
    | cons c cs =>
      simp [strTruthy]
      intro h
      exact absurd (congrArg String.data h) (by simp)

theorem addNote_of_blank (s : AppState) (formattedDate : String) (dateNow : Nat)
    (ht : jsTrim s.title = "") (hc : jsTrim s.content = "") :
    addNote s formattedDate dateNow = s := by
  have h1 : strTruthy (jsTrim s.title) = false := (strTruthy_eq_false_iff _).2 ht
  have h2 : strTruthy (jsTrim s.content) = false := (strTruthy_eq_false_iff _).2 hc
  simp [addNote, h1, h2]

theorem filter_bne_of_not_mem (t : String) (tags : List String) (h : t ∉ tags) :
    tags.filter (fun tag => tag != t) = tags := by
  rw [List.filter_eq_self]
  intro a ha
  have hne : a ≠ t := fun e => h (e ▸ ha)
  simpa using hne

theorem strTruthy_eq_true_iff (s : String) : strTruthy s = true ↔ s ≠ "" := by
  rw [← Bool.not_eq_false, Ne, strTruthy_eq_false_iff]

theorem nonblank_guard (s : AppState)
    (hnb : jsTrim s.title ≠ "" ∨ jsTrim s.content ≠ "") :
    (strTruthy (jsTrim s.title) || strTruthy (jsTrim s.content)) = true := by
  rcases hnb with h | h
  · simp [(strTruthy_eq_true_iff _).2 h]
  · simp [(strTruthy_eq_true_iff _).2 h]

theorem addNote_update_branch (s : AppState) (formattedDate : String) (dateNow eid : Nat)
    (hid : s.editingId = some eid) (hnz : eid ≠ 0)
    (hnb : jsTrim s.title ≠ "" ∨ jsTrim s.content ≠ "") :
    addNote s formattedDate dateNow =
      { s with
        notes := s.notes.map (fun note =>
          if note.id = eid then updatedNote s eid formattedDate note else note),
        editingId := none,
        title := "", content := "", tags := [], openDialog := false } := by
  have hg := nonblank_guard s hnb
  have ht : truthyId s.editingId = some eid := by simp [hid, truthyId, hnz]
  simp only [addNote, hg, if_true, ht]

theorem map_id_update (s : AppState) (eid : Nat) (formattedDate : String)
    (notes : List Note) :
    (notes.map (fun note =>
      if note.id = eid then updatedNote s eid formattedDate note else note)).map (·.id) =
      notes.map (·.id) := by
  rw [List.map_map]
  apply List.map_congr_left
  intro n _
  by_cases h : n.id = eid
  · simp [h, updatedNote]
  · simp [h]

theorem map_id_togglePin (id : Nat) (notes : List Note) :
    (notes.map (fun note =>
      if note.id = id then { note with isPinned := !note.isPinned } else note)).map (·.id) =
      notes.map (·.id) := by
  rw [List.map_map]
  apply List.map_congr_left
  intro n _
  by_cases h : n.id = id
  · simp [h]
  · simp [h]

theorem addNote_ids (s : AppState) (formattedDate : String) (dateNow : Nat) :
    (addNote s formattedDate dateNow).notes.map (·.id) =
      if (strTruthy (jsTrim s.title) || strTruthy (jsTrim s.content)) = true ∧
          truthyId s.editingId = none
      then s.notes.map (·.id) ++ [dateNow] else s.notes.map (·.id) := by
  by_cases hg : (strTruthy (jsTrim s.title) || strTruthy (jsTrim s.content)) = true
  · cases ht : truthyId s.editingId with
    | none =>
      rw [if_pos ⟨hg, rfl⟩]
      simp [addNote, hg, ht, createdNote]
    | some eid =>
      rw [if_neg (by simp)]
      simp only [addNote, hg, if_true, ht]
      exact map_id_update s eid formattedDate s.notes
  · rw [if_neg (fun h => hg h.1)]
    simp only [addNote, hg]
    rfl

theorem applyOp_ids (notes : List Note) (op : StoreOp) :
    (∀ d, allocatedId op = some d →
      (applyOp notes op).map (·.id) = notes.map (·.id) ++ [d]) ∧
    (allocatedId op = none →
      ((applyOp notes op).map (·.id)).Sublist (notes.map (·.id))) := by
  cases op with
  | create title content tags formattedDate dateNow =>
    simp only [applyOp, allocatedId, addNote_ids, draftState, truthyId]
    by_cases hg : (strTruthy (jsTrim title) || strTruthy (jsTrim content)) = true
    · simp [hg]
    · simp [hg]
  | update id title content tags formattedDate dateNow =>
    simp only [applyOp, allocatedId, addNote_ids, draftState, truthyId]
    by_cases hg : (strTruthy (jsTrim title) || strTruthy (jsTrim content)) = true
    · by_cases hz : id = 0
      · simp [hg, hz]
      · simp [hg, hz]
    · simp [hg]
  | delete id =>
    simp only [applyOp, allocatedId, deleteNote, draftState]
    refine ⟨by simp, fun _ => ?_⟩
    exact (List.filter_sublist _).map _
  | togglePin id =>
    simp only [applyOp, allocatedId, togglePin, draftState]
    refine ⟨by simp, fun _ => ?_⟩
    rw [map_id_togglePin]

theorem foldl_applyOp_nodup (ops : List StoreOp) :
    ∀ notes : List Note, (notes.map (·.id)).Nodup →
      (ops.filterMap allocatedId).Nodup →
      (∀ x ∈ notes.map (·.id), x ∉ ops.filterMap allocatedId) →
      ((ops.foldl applyOp notes).map (·.id)).Nodup := by
  induction ops with
  | nil => intro notes h _ _; simpa using h
  | cons op ops ih =>
    intro notes hn hops hdisj
    rw [List.foldl_cons]
    cases ha : allocatedId op with
    | none =>
      have hsub := (applyOp_ids notes op).2 ha
      rw [List.filterMap_cons_none ha] at hops hdisj
      exact ih _ (hsub.nodup hn) hops (fun x hx => hdisj x (hsub.subset hx))
    | some d =>
      have heq := (applyOp_ids notes op).1 d ha
      rw [List.filterMap_cons_some ha] at hops hdisj
      have hd : d ∉ notes.map (·.id) := fun hmem => hdisj d hmem (List.mem_cons_self _ _)
      rw [List.nodup_cons] at hops
      apply ih _ _ hops.2
      · intro x hx
        rw [heq, List.mem_append, List.mem_singleton] at hx
        rcases hx with hx | hx
        · exact fun hm => hdisj x hx (List.mem_cons_of_mem _ hm)
        · rw [hx]; exact hops.1
      · rw [heq]
        refine List.Nodup.append hn (List.nodup_singleton d) ?_
        intro x hx hx2
        rw [List.mem_singleton] at hx2
        exact hd (hx2 ▸ hx)

theorem includesChars_iff (hay needle : List Char) :
    includesChars hay needle = true ↔ needle <:+: hay := by
  rw [includesChars, List.any_eq_true, List.infix_iff_prefix_suffix]
  constructor
  · rintro ⟨t, ht, hp⟩
    exact ⟨t, List.isPrefixOf_iff_prefix.1 hp, (List.mem_tails t hay).1 ht⟩
  · rintro ⟨t, hp, ht⟩
    exact ⟨t, (List.mem_tails t hay).2 ht, List.isPrefixOf_iff_prefix.2 hp⟩

theorem matchesSearch_iff (rt : JsRuntime) (q : String) (n : Note) :
    matchesSearch rt q n = true ↔
      ((rt.toLowerCase q).data <:+: (rt.toLowerCase n.title).data ∨
       (rt.toLowerCase q).data <:+: (rt.toLowerCase n.content).data) := by
  simp only [matchesSearch, jsIncludes, Bool.or_eq_true, includesChars_iff]

theorem matchesSearch_empty (rt : JsRuntime) (n : Note) :
    matchesSearch rt "" n = true := by
  rw [matchesSearch_iff, rt.toLowerCase_empty]
  exact Or.inl ⟨[], (rt.toLowerCase n.title).data, by simp⟩

theorem insertionPoint_fuel (cmp : α → α → Option Int) (pivot : α) (sorted : List α) :
    ∀ fuel left right, right - left ≤ fuel →
      insertionPoint cmp pivot sorted (fuel + 1) left right =
        insertionPoint cmp pivot sorted fuel left right := by
  intro fuel
  induction fuel with
  | zero =>
    intro left right hf
    have hlt : ¬ left < right := by omega
    simp [insertionPoint, hlt]
  | succ fuel ih =>
    intro left right hf
    rw [insertionPoint]
    conv_rhs => rw [insertionPoint]
    by_cases hlt : left < right
    · simp only [hlt, if_true]
      cases sorted[left + (right - left) / 2]? with
      | none => rfl
      | some e =>
        simp only
        rw [ih left (left + (right - left) / 2) (by omega),
          ih (left + (right - left) / 2 + 1) right (by omega)]
    · simp only [hlt, if_false]

theorem runSpan_append (cmp : α → α → Option Int) (d : Bool) :
    ∀ (l : List α) (previous : α),
      (runSpan cmp d previous l).1 ++ (runSpan cmp d previous l).2 = l
  | [], _ => rfl
  | current :: rest, previous => by
    have ih := runSpan_append cmp d rest current
    cases d
    · by_cases h : sortCompare cmp current previous < 0
      · simp [runSpan, h]
      · simp [runSpan, h, ih]
    · by_cases h : 0 ≤ sortCompare cmp current previous
      · simp [runSpan, h]
      · simp [runSpan, h, ih]

theorem perm_binaryInsert (cmp : α → α → Option Int) (sorted : List α) (pivot : α) :
    (binaryInsert cmp sorted pivot).Perm (pivot :: sorted) := by
  rw [binaryInsert]
  refine List.perm_middle.trans ?_
  rw [List.take_append_drop]

theorem perm_foldl_binaryInsert (cmp : α → α → Option Int) :
    ∀ (rest acc : List α), (rest.foldl (binaryInsert cmp) acc).Perm (acc ++ rest)
  | [], acc => by simp
  | x :: rest, acc => by
    rw [List.foldl_cons]
    refine (perm_foldl_binaryInsert cmp rest (binaryInsert cmp acc x)).trans ?_
    refine ((perm_binaryInsert cmp acc x).append_right rest).trans ?_
    simpa using (@List.perm_middle _ x acc rest).symm

theorem perm_jsSort (cmp : α → α → Option Int) :
    ∀ l : List α, (jsSort cmp l).Perm l
  | [] => List.Perm.refl _
  | [_] => List.Perm.refl _
  | x0 :: x1 :: rest => by
    by_cases h : sortCompare cmp x1 x0 < 0
    · simp only [jsSort, h, if_true]
      refine (perm_foldl_binaryInsert cmp _ _).trans ?_
      refine ((List.reverse_perm _).append_right _).trans ?_
      simp only [List.cons_append, runSpan_append]
      exact List.Perm.refl _
    · simp only [jsSort, h, if_false]
      refine (perm_foldl_binaryInsert cmp _ _).trans ?_
      simp only [List.cons_append, runSpan_append]
      exact List.Perm.refl _

theorem sortCompare_le_of_nonneg (cmp : α → α → Option Int) (P : α → Prop)
    (hanti : ∀ a b, P a → P b → sortCompare cmp b a = - sortCompare cmp a b)
    {p e : α} (hp : P p) (he : P e) (h : 0 ≤ sortCompare cmp p e) :
    sortCompare cmp e p ≤ 0 := by
  rw [hanti p e hp he]; omega

theorem sortCompare_lt_of_lt_of_le (cmp : α → α → Option Int) (P : α → Prop)
    (hanti : ∀ a b, P a → P b → sortCompare cmp b a = - sortCompare cmp a b)
    (htrans : ∀ a b c, P a → P b → P c →
      sortCompare cmp a b ≤ 0 → sortCompare cmp b c ≤ 0 → sortCompare cmp a c ≤ 0)
    {p m e : α} (hp : P p) (hm : P m) (he : P e)
    (h1 : sortCompare cmp p m < 0) (h2 : sortCompare cmp m e ≤ 0) :
    sortCompare cmp p e < 0 := by
  by_contra hc
  have h3 : sortCompare cmp e p ≤ 0 := sortCompare_le_of_nonneg cmp P hanti hp he (by omega)
  have h4 := htrans m e p hm he hp h2 h3
  rw [hanti p m hp hm] at h4
  omega

theorem sortCompare_nonneg_of_nonneg_of_le (cmp : α → α → Option Int) (P : α → Prop)
    (hanti : ∀ a b, P a → P b → sortCompare cmp b a = - sortCompare cmp a b)
    (htrans : ∀ a b c, P a → P b → P c →
      sortCompare cmp a b ≤ 0 → sortCompare cmp b c ≤ 0 → sortCompare cmp a c ≤ 0)
    {p m e : α} (hp : P p) (hm : P m) (he : P e)
    (h1 : 0 ≤ sortCompare cmp p m) (h2 : sortCompare cmp e m ≤ 0) :
    0 ≤ sortCompare cmp p e := by
  have h3 := sortCompare_le_of_nonneg cmp P hanti hp hm h1
  have h4 := htrans e m p he hm hp h2 h3
  rw [hanti e p he hp]
  omega

theorem insertionPoint_spec (cmp : α → α → Option Int) (P : α → Prop)
    (hanti : ∀ a b, P a → P b → sortCompare cmp b a = - sortCompare cmp a b)
    (htrans : ∀ a b c, P a → P b → P c →
      sortCompare cmp a b ≤ 0 → sortCompare cmp b c ≤ 0 → sortCompare cmp a c ≤ 0)
    (S : List α) (hS : S.Pairwise (fun a b => sortCompare cmp a b ≤ 0))
    (hPS : ∀ e ∈ S, P e) (p : α) (hp : P p) :
    ∀ fuel left right, right - left ≤ fuel → left ≤ right → right ≤ S.length →
      (∀ e ∈ S.take left, 0 ≤ sortCompare cmp p e) →
      (∀ e ∈ S.drop right, sortCompare cmp p e < 0) →
      (∀ e ∈ S.take (insertionPoint cmp p S fuel left right), 0 ≤ sortCompare cmp p e) ∧
      (∀ e ∈ S.drop (insertionPoint cmp p S fuel left right), sortCompare cmp p e < 0) := by
  intro fuel
  induction fuel with
  | zero =>
    intro left right hf hlr _ hl hr
    have : left = right := by omega
    subst this
    exact ⟨hl, hr⟩
  | succ fuel ih =>
    intro left right hf hlr hlen hl hr
    by_cases hlt : left < right
    · have hmid : left + (right - left) / 2 < S.length := by omega
      have he : S[left + (right - left) / 2]? = some S[left + (right - left) / 2] :=
        List.getElem?_eq_getElem hmid
      have hPe : P S[left + (right - left) / 2] := hPS _ (List.getElem_mem _)
      have hdrop : S.drop (left + (right - left) / 2) =
          S[left + (right - left) / 2] :: S.drop (left + (right - left) / 2 + 1) :=
        List.drop_eq_getElem_cons hmid
      have hsplit : S = S.take (left + (right - left) / 2) ++
          (S[left + (right - left) / 2] :: S.drop (left + (right - left) / 2 + 1)) := by
        rw [← hdrop, List.take_append_drop]
      have hS2 := hS
      rw [hsplit, List.pairwise_append, List.pairwise_cons] at hS2
      by_cases hc : sortCompare cmp p S[left + (right - left) / 2] < 0
      · simp only [insertionPoint, hlt, if_true, he, hc]
        apply ih left (left + (right - left) / 2) (by omega) (by omega) (by omega) hl
        intro e hmem
        rw [hdrop] at hmem
        rcases List.mem_cons.1 hmem with h | h
        · rw [h]; exact hc
        · exact sortCompare_lt_of_lt_of_le cmp P hanti htrans hp hPe
            (hPS e (List.mem_of_mem_drop h)) hc (hS2.2.1.1 e h)
      · simp only [insertionPoint, hlt, if_true, he, hc, if_false]
        apply ih (left + (right - left) / 2 + 1) right (by omega) (by omega) hlen _ hr
        intro e hmem
        rw [List.take_succ, he] at hmem
        simp only [Option.toList, List.mem_append, List.mem_singleton] at hmem
        rcases hmem with h | h
        · exact sortCompare_nonneg_of_nonneg_of_le cmp P hanti htrans hp hPe
            (hPS e (List.mem_of_mem_take h)) (by omega)
            (hS2.2.2 e h _ (List.mem_cons_self _ _))
        · rw [h]; omega
    · have : left = right := by omega
      subst this
      simp only [insertionPoint, hlt, if_false]
      exact ⟨hl, hr⟩

theorem pairwise_binaryInsert (cmp : α → α → Option Int) (P : α → Prop)
    (hanti : ∀ a b, P a → P b → sortCompare cmp b a = - sortCompare cmp a b)
    (htrans : ∀ a b c, P a → P b → P c →
      sortCompare cmp a b ≤ 0 → sortCompare cmp b c ≤ 0 → sortCompare cmp a c ≤ 0)
    (S : List α) (hS : S.Pairwise (fun a b => sortCompare cmp a b ≤ 0))
    (hPS : ∀ e ∈ S, P e) (p : α) (hp : P p) :
    (binaryInsert cmp S p).Pairwise (fun a b => sortCompare cmp a b ≤ 0) := by
  obtain ⟨hl, hr⟩ := insertionPoint_spec cmp P hanti htrans S hS hPS p hp
    S.length 0 S.length (by omega) (by omega) (le_refl _) (by simp) (by simp)
  have hS2 := hS
  rw [← List.take_append_drop (insertionPoint cmp p S S.length 0 S.length) S,
    List.pairwise_append] at hS2
  rw [binaryInsert, List.pairwise_append, List.pairwise_cons]
  refine ⟨hS2.1, ⟨?_, hS2.2.1⟩, ?_⟩
  · intro e he
    exact le_of_lt (hr e he)
  · intro a ha b hb
    rcases List.mem_cons.1 hb with h | h
    · rw [h]
      exact sortCompare_le_of_nonneg cmp P hanti hp (hPS a (List.mem_of_mem_take ha)) (hl a ha)
    · exact hS2.2.2 a ha b h

theorem pairwise_foldl_binaryInsert (cmp : α → α → Option Int) (P : α → Prop)
    (hanti : ∀ a b, P a → P b → sortCompare cmp b a = - sortCompare cmp a b)
    (htrans : ∀ a b c, P a → P b → P c →
      sortCompare cmp a b ≤ 0 → sortCompare cmp b c ≤ 0 → sortCompare cmp a c ≤ 0) :
    ∀ (rest acc : List α), (∀ e ∈ rest, P e) → (∀ e ∈ acc, P e) →
      acc.Pairwise (fun a b => sortCompare cmp a b ≤ 0) →
      (rest.foldl (binaryInsert cmp) acc).Pairwise (fun a b => sortCompare cmp a b ≤ 0)
  | [], _, _, _, hs => by simpa using hs
  | x :: rest, acc, hr, ha, hs => by
    rw [List.foldl_cons]
    have hx : P x := hr x (List.mem_cons_self _ _)
    apply pairwise_foldl_binaryInsert cmp P hanti htrans rest _
      (fun e he => hr e (List.mem_cons_of_mem _ he))
    · intro e he
      rcases List.mem_cons.1 ((perm_binaryInsert cmp acc x).mem_iff.1 he) with h | h
      · rw [h]; exact hx
      · exact ha e h
    · exact pairwise_binaryInsert cmp P hanti htrans acc hs ha x hx

theorem pairwise_runSpan_ascending (cmp : α → α → Option Int) (P : α → Prop)
    (hanti : ∀ a b, P a → P b → sortCompare cmp b a = - sortCompare cmp a b)
    (htrans : ∀ a b c, P a → P b → P c →
      sortCompare cmp a b ≤ 0 → sortCompare cmp b c ≤ 0 → sortCompare cmp a c ≤ 0) :
    ∀ (l : List α) (previous : α), P previous → (∀ e ∈ l, P e) →
      (previous :: (runSpan cmp false previous l).1).Pairwise
        (fun a b => sortCompare cmp a b ≤ 0)
  | [], _, _, _ => by simp [runSpan]
  | current :: rest, previous, hp, hl => by
    have hc : P current := hl current (List.mem_cons_self _ _)
    have hrest : ∀ e ∈ rest, P e := fun e he => hl e (List.mem_cons_of_mem _ he)
    by_cases h : sortCompare cmp current previous < 0
    · simp [runSpan, h]
    · have ih := pairwise_runSpan_ascending cmp P hanti htrans rest current hc hrest
      have hpc : sortCompare cmp previous current ≤ 0 :=
        sortCompare_le_of_nonneg cmp P hanti hc hp (by omega)
      simp only [runSpan, h, if_false, Bool.false_eq_true]
      refine List.Pairwise.cons ?_ ih
      intro e he
      rcases List.mem_cons.1 he with h1 | h1
      · rw [h1]; exact hpc
      · have hmem : e ∈ rest := by
          have := runSpan_append cmp false rest current
          rw [← this]
          exact List.mem_append_left _ h1
        exact htrans previous current e hp hc (hrest e hmem) hpc
          ((List.pairwise_cons.1 ih).1 e h1)

theorem pairwise_runSpan_descending (cmp : α → α → Option Int) (P : α → Prop)
    (htrans : ∀ a b c, P a → P b → P c →
      sortCompare cmp a b ≤ 0 → sortCompare cmp b c ≤ 0 → sortCompare cmp a c ≤ 0) :
    ∀ (l : List α) (previous : α), P previous → (∀ e ∈ l, P e) →
      (previous :: (runSpan cmp true previous l).1).Pairwise
        (fun a b => sortCompare cmp b a ≤ 0)
  | [], _, _, _ => by simp [runSpan]
  | current :: rest, previous, hp, hl => by
    have hc : P current := hl current (List.mem_cons_self _ _)
    have hrest : ∀ e ∈ rest, P e := fun e he => hl e (List.mem_cons_of_mem _ he)
    by_cases h : 0 ≤ sortCompare cmp current previous
    · simp [runSpan, h]
    · have ih := pairwise_runSpan_descending cmp P htrans rest current hc hrest
      have hcp : sortCompare cmp current previous ≤ 0 := by omega
      simp only [runSpan, h, if_false, if_true]
      refine List.Pairwise.cons ?_ ih
      intro e he
      rcases List.mem_cons.1 he with h1 | h1
      · rw [h1]; exact hcp
      · have hmem : e ∈ rest := by
          have := runSpan_append cmp true rest current
          rw [← this]
          exact List.mem_append_left _ h1
        exact htrans e current previous (hrest e hmem) hc hp
          ((List.pairwise_cons.1 ih).1 e h1) hcp

theorem pairwise_jsSort (cmp : α → α → Option Int) (P : α → Prop)
    (hanti : ∀ a b, P a → P b → sortCompare cmp b a = - sortCompare cmp a b)
    (htrans : ∀ a b c, P a → P b → P c →
      sortCompare cmp a b ≤ 0 → sortCompare cmp b c ≤ 0 → sortCompare cmp a c ≤ 0) :
    ∀ l : List α, (∀ e ∈ l, P e) →
      (jsSort cmp l).Pairwise (fun a b => sortCompare cmp a b ≤ 0)
  | [], _ => by simp [jsSort]
  | [_], _ => by simp [jsSort]
  | x0 :: x1 :: rest, hl => by
    have h0 : P x0 := hl x0 (by simp)
    have h1 : P x1 := hl x1 (by simp)
    have hrest : ∀ e ∈ rest, P e := fun e he => hl e (by simp [he])
    have hrun : ∀ d, ∀ e ∈ (runSpan cmp d x1 rest).1, P e := fun d e he =>
      hrest e (by rw [← runSpan_append cmp d rest x1]; exact List.mem_append_left _ he)
    have hrem : ∀ d, ∀ e ∈ (runSpan cmp d x1 rest).2, P e := fun d e he =>
      hrest e (by rw [← runSpan_append cmp d rest x1]; exact List.mem_append_right _ he)
    by_cases h : sortCompare cmp x1 x0 < 0
    · simp only [jsSort, h, if_true]
      apply pairwise_foldl_binaryInsert cmp P hanti htrans _ _ (hrem true)
      · intro e he
        rcases List.mem_cons.1 (List.mem_reverse.1 he) with h2 | h2
        · rw [h2]; exact h0
        · rcases List.mem_cons.1 h2 with h3 | h3
          · rw [h3]; exact h1
          · exact hrun true e h3
      · rw [List.pairwise_reverse]
        have ih := pairwise_runSpan_descending cmp P htrans rest x1 h1 hrest
        refine List.Pairwise.cons ?_ ih
        intro e he
        rcases List.mem_cons.1 he with h2 | h2
        · rw [h2]; exact le_of_lt h
        · exact htrans e x1 x0 (hrun true e h2) h1 h0
            ((List.pairwise_cons.1 ih).1 e h2) (le_of_lt h)
    · simp only [jsSort, h, if_false]
      apply pairwise_foldl_binaryInsert cmp P hanti htrans _ _ (hrem false)
      · intro e he
        rcases List.mem_cons.1 he with h2 | h2
        · rw [h2]; exact h0
        · rcases List.mem_cons.1 h2 with h3 | h3
          · rw [h3]; exact h1
          · exact hrun false e h3
      · have ih := pairwise_runSpan_ascending cmp P hanti htrans rest x1 h1 hrest
        have h01 : sortCompare cmp x0 x1 ≤ 0 := sortCompare_le_of_nonneg cmp P hanti h1 h0 (by omega)
        refine List.Pairwise.cons ?_ ih
        intro e he
        rcases List.mem_cons.1 he with h2 | h2
        · rw [h2]; exact h01
        · exact htrans x0 x1 e h0 h1 (hrun false e h2) h01
            ((List.pairwise_cons.1 ih).1 e h2)

theorem sortCompare_compareNotes (rt : JsRuntime) (a b : Note) (ta tb : Int)
    (ha : rt.dateValue a.createdAt = some ta) (hb : rt.dateValue b.createdAt = some tb) :
    sortCompare (compareNotes rt) a b ≤ 0 ↔
      (a.isPinned = true ∧ b.isPinned = false) ∨ (a.isPinned = b.isPinned ∧ tb ≤ ta) := by
  cases hpa : a.isPinned <;> cases hpb : b.isPinned <;>
    simp [sortCompare, compareNotes, hpa, hpb, ha, hb]

theorem compareNotes_anti (rt : JsRuntime) (a b : Note)
    (ha : (rt.dateValue a.createdAt).isSome = true)
    (hb : (rt.dateValue b.createdAt).isSome = true) :
    sortCompare (compareNotes rt) b a = - sortCompare (compareNotes rt) a b := by
  obtain ⟨ta, hta⟩ := Option.isSome_iff_exists.1 ha
  obtain ⟨tb, htb⟩ := Option.isSome_iff_exists.1 hb
  cases hpa : a.isPinned <;> cases hpb : b.isPinned <;>
    simp [sortCompare, compareNotes, hpa, hpb, hta, htb]

theorem compareNotes_trans (rt : JsRuntime) (a b c : Note)
    (ha : (rt.dateValue a.createdAt).isSome = true)
    (hb : (rt.dateValue b.createdAt).isSome = true)
    (hc : (rt.dateValue c.createdAt).isSome = true)
    (hab : sortCompare (compareNotes rt) a b ≤ 0)
    (hbc : sortCompare (compareNotes rt) b c ≤ 0) :
    sortCompare (compareNotes rt) a c ≤ 0 := by
  obtain ⟨ta, hta⟩ := Option.isSome_iff_exists.1 ha
  obtain ⟨tb, htb⟩ := Option.isSome_iff_exists.1 hb
  obtain ⟨tc, htc⟩ := Option.isSome_iff_exists.1 hc
  rw [sortCompare_compareNotes rt a b ta tb hta htb] at hab
  rw [sortCompare_compareNotes rt b c tb tc htb htc] at hbc
  rw [sortCompare_compareNotes rt a c ta tc hta htc]
  cases hpa : a.isPinned <;> cases hpb : b.isPinned <;> cases hpc : c.isPinned <;>
    simp [hpa, hpb, hpc] at hab hbc ⊢
  · exact le_trans hbc hab
  · exact le_trans hbc hab

theorem mem_filteredNotes (rt : JsRuntime) (notes : List Note) (q : String) (n : Note) :
    n ∈ filteredNotes rt notes q ↔ n ∈ notes ∧ matchesSearch rt q n = true := by
  rw [filteredNotes, (perm_jsSort _ _).mem_iff, List.mem_filter]

/-! ## Evaluation on the scenario of the specification

Note A is created in 2020 and note B in 2021; the projection lists B first,
then A first once A is pinned; the query `milk` selects A; deleting B leaves
A alone. -/

example : jsTrim "  a b \n" = "a b" ∧ jsTrim " \t\n" = "" := by decide

example :
    (filteredNotes sampleRuntime
      (runOps [StoreOp.create "Groceries" "Milk, eggs" [] "2020-01-01T00:00:00.000Z" 1,
               StoreOp.create "Work" "Finish report" [] "2021-01-01T00:00:00.000Z" 2])
      "").map (·.title) = ["Work", "Groceries"] := by decide

example :
    (filteredNotes sampleRuntime
      (runOps [StoreOp.create "Groceries" "Milk, eggs" [] "2020-01-01T00:00:00.000Z" 1,
               StoreOp.create "Work" "Finish report" [] "2021-01-01T00:00:00.000Z" 2,
               StoreOp.togglePin 1])
      "").map (·.title) = ["Groceries", "Work"] := by decide

example :
    (filteredNotes sampleRuntime
      (runOps [StoreOp.create "Groceries" "Milk, eggs" [] "2020-01-01T00:00:00.000Z" 1,
               StoreOp.create "Work" "Finish report" [] "2021-01-01T00:00:00.000Z" 2,
               StoreOp.togglePin 1])
      "milk").map (·.title) = ["Groceries"] := by decide

example :
    (runOps [StoreOp.create "Groceries" "Milk, eggs" [] "2020-01-01T00:00:00.000Z" 1,
             StoreOp.create "Work" "Finish report" [] "2021-01-01T00:00:00.000Z" 2,
             StoreOp.togglePin 1, StoreOp.delete 2]).map (·.title) = ["Groceries"] := by
  decide

/-! With an unreadable date in third place the run is the first two notes,
reversed; binary insertion then leaves the third note last and puts the
fourth between the two notes of the run. -/

example :
    (filteredNotes sampleRuntime
      [⟨1, "a", "", [], "2020-01-01T00:00:00.000Z", "2020-01-01T00:00:00.000Z", false⟩,
       ⟨2, "b", "", [], "2021-01-01T00:00:00.000Z", "2021-01-01T00:00:00.000Z", false⟩,
       ⟨3, "c", "", [], "not a date", "not a date", false⟩,
       ⟨4, "d", "", [], "2021-01-01T00:00:00.000Z", "2021-01-01T00:00:00.000Z", false⟩]
      "").map (·.id) = [2, 4, 1, 3] := by decide

/-! ## Blank commits -/

/-- C1: a commit whose trimmed title and trimmed content are both empty leaves
the note collection identical (same notes, same order, same length), for every
collection, every draft tag list and every value of the editing id. -/
theorem addNote_blank_collection_unchanged (s : AppState) (formattedDate : String)
    (dateNow : Nat) (ht : jsTrim s.title = "") (hc : jsTrim s.content = "") :
    (addNote s formattedDate dateNow).notes = s.notes ∧
    (addNote s formattedDate dateNow).notes.length = s.notes.length := by
  rw [addNote_of_blank s formattedDate dateNow ht hc]
  exact ⟨rfl, rfl⟩

theorem addNote_blank_collection_unchanged_witness :
    (jsTrim " \t" = "" ∧ jsTrim "" = "") ∧
    (addNote (draftState [⟨7, "a", "b", ["x"], "d", "d", true⟩] (some 7) " \t" "" ["y"])
        "now" 9).notes = [⟨7, "a", "b", ["x"], "d", "d", true⟩] ∧
    (addNote (draftState [⟨7, "a", "b", ["x"], "d", "d", true⟩] (some 7) " \t" "" ["y"])
        "now" 9).notes.length = 1 :=
  ⟨by decide,
   addNote_blank_collection_unchanged
     (draftState [⟨7, "a", "b", ["x"], "d", "d", true⟩] (some 7) " \t" "" ["y"]) "now" 9
     (by decide) (by decide)⟩

/-- C9 as stated fails: with the dialog open and a blank draft, `addNote`
neither closes the dialog nor resets the draft tags. -/
theorem addNote_blank_does_not_close :
    (draftState [] (some 7) " " "" ["y"]).openDialog = true ∧
    jsTrim (draftState [] (some 7) " " "" ["y"]).title = "" ∧
    jsTrim (draftState [] (some 7) " " "" ["y"]).content = "" ∧
    ¬ ((addNote (draftState [] (some 7) " " "" ["y"]) "now" 9).openDialog = false ∧
       (addNote (draftState [] (some 7) " " "" ["y"]) "now" 9).editingId = none ∧
       (addNote (draftState [] (some 7) " " "" ["y"]) "now" 9).title = "" ∧
       (addNote (draftState [] (some 7) " " "" ["y"]) "now" 9).content = "" ∧
       (addNote (draftState [] (some 7) " " "" ["y"]) "now" 9).tags = [] ∧
       (addNote (draftState [] (some 7) " " "" ["y"]) "now" 9).notes = []) := by
  decide

/-- C9 amended: with the dialog open and a blank draft, `addNote` changes
nothing at all: the dialog stays open, the editing target, the draft title,
content and tags are kept, and the collection is unchanged. -/
theorem addNote_blank_is_noop (s : AppState) (formattedDate : String) (dateNow : Nat)
    (hopen : s.openDialog = true)
    (ht : jsTrim s.title = "") (hc : jsTrim s.content = "") :
    addNote s formattedDate dateNow = s ∧
    (addNote s formattedDate dateNow).openDialog = true := by
  rw [addNote_of_blank s formattedDate dateNow ht hc]
  exact ⟨rfl, hopen⟩

theorem addNote_blank_is_noop_witness :
    addNote (draftState [] (some 7) " " "" ["y"]) "now" 9 =
      draftState [] (some 7) " " "" ["y"] ∧
    (addNote (draftState [] (some 7) " " "" ["y"]) "now" 9).openDialog = true :=
  addNote_blank_is_noop (draftState [] (some 7) " " "" ["y"]) "now" 9
    (by decide) (by decide) (by decide)

/-! ## Delete -/

/-- C10: `deleteNote` returns exactly the notes whose id differs from the
given id, in their original order; deleting the same id again changes
nothing more; deleting an id no note carries returns the collection
unchanged. -/
theorem deleteNote_filters_idempotent (s : AppState) (id : Nat) :
    (deleteNote s id).notes = s.notes.filter (fun n => decide (n.id ≠ id)) ∧
    (deleteNote s id).notes.Sublist s.notes ∧
    (∀ n, n ∈ (deleteNote s id).notes ↔ n ∈ s.notes ∧ n.id ≠ id) ∧
    (deleteNote (deleteNote s id) id).notes = (deleteNote s id).notes ∧
    ((∀ n ∈ s.notes, n.id ≠ id) → (deleteNote s id).notes = s.notes) := by
  have hf : (fun note : Note => note.id != id) = fun n => decide (n.id ≠ id) := by
    funext n
    by_cases h : n.id = id <;> simp [h]
  refine ⟨?_, ?_, ?_, ?_, ?_⟩
  · simp only [deleteNote, hf]
  · simp only [deleteNote]
    exact List.filter_sublist _
  · intro n
    simp [deleteNote, List.mem_filter]
  · simp only [deleteNote, List.filter_filter, Bool.and_self]
  · intro h
    simp only [deleteNote]
    rw [List.filter_eq_self]
    intro n hn
    simpa using h n hn

theorem deleteNote_filters_idempotent_witness :
    (∀ n ∈ [(⟨7, "a", "b", [], "d", "d", false⟩ : Note)], n.id ≠ 8) ∧
    (deleteNote (draftState [⟨7, "a", "b", [], "d", "d", false⟩] none "" "" []) 8).notes =
      [⟨7, "a", "b", [], "d", "d", false⟩] :=
  ⟨by decide,
   (deleteNote_filters_idempotent
      (draftState [⟨7, "a", "b", [], "d", "d", false⟩] none "" "" []) 8).2.2.2.2
      (by decide)⟩

/-! ## Tag editor -/

/-- C7 as stated fails: the tag field `" a"` trims to `"a"`, which is not
empty and not in the empty list, yet `addTag` does not append `"a"`. -/
theorem addTag_appends_untrimmed :
    ¬ ((addTag { initialState false with tags := [], selectedTag := " a" }).tags =
        if jsTrim " a" = "" ∨ jsTrim " a" ∈ ([] : List String) then []
        else [] ++ [jsTrim " a"]) := by
  decide

/-- C7 amended: `addTag` returns the tag list unchanged when the trimmed
text is empty or when the text itself, untrimmed, is already in the list
(case-sensitive), and otherwise returns the list with the text itself,
untrimmed, appended at the end. -/
theorem addTag_tags (s : AppState) :
    (addTag s).tags =
      if jsTrim s.selectedTag = "" ∨ s.selectedTag ∈ s.tags then s.tags
      else s.tags ++ [s.selectedTag] := by
  by_cases hb : jsTrim s.selectedTag = ""
  · have h1 : strTruthy (jsTrim s.selectedTag) = false := (strTruthy_eq_false_iff _).2 hb
    rw [if_pos (Or.inl hb)]
    simp [addTag, h1]
  · have h1 : strTruthy (jsTrim s.selectedTag) = true := by
      cases h : strTruthy (jsTrim s.selectedTag) with
      | true => rfl
      | false => exact absurd ((strTruthy_eq_false_iff _).1 h) hb
    by_cases hm : s.selectedTag ∈ s.tags
    · simp [addTag, h1, hb, hm]
    · simp [addTag, h1, hb, hm]

/-- C8 as stated fails: on the duplicate-free list `["a"]`, adding `"a"`
(already present, so nothing is added) and then removing `"a"` yields the
empty list. -/
theorem addTag_removeTag_present :
    (["a"] : List String).Nodup ∧
    (removeTag (addTag { initialState false with tags := ["a"], selectedTag := "a" })
      "a").tags ≠ ["a"] := by
  decide

/-- C8 amended: for every draft tag list and every tag value `t` that is not
already in the list, `addTag` with `t` followed by `removeTag` with `t`
yields the original tag list, element for element and in the same order. -/
theorem addTag_removeTag_absent (s : AppState) (t : String) (habs : t ∉ s.tags) :
    (removeTag (addTag { s with selectedTag := t }) t).tags = s.tags := by
  by_cases hc : (strTruthy (jsTrim t) && !(s.tags.contains t)) = true
  · simp only [removeTag, addTag, hc, if_true, List.filter_append]
    rw [filter_bne_of_not_mem t s.tags habs]
    simp
  · simp only [removeTag, addTag, hc]
    exact filter_bne_of_not_mem t s.tags habs

theorem addTag_removeTag_absent_witness :
    ("b" ∉ (["a"] : List String)) ∧
    (removeTag (addTag { { initialState false with tags := ["a"] } with selectedTag := "b" })
      "b").tags = ["a"] :=
  ⟨by decide,
   addTag_removeTag_absent { initialState false with tags := ["a"] } "b" (by decide)⟩

/-! ## Update -/

/-- C4: the code at the failing input. The stored note has id `0`; `editNote`
makes it the editing target, the title is changed to `"t"`, and the commit
takes the create branch, because `if (editingId)` reads `0` as no target:
the note with id `0` keeps its title and `updatedAt`, and a second note is
appended, where the claim requires the same length and the edited note
rewritten. -/
theorem addNote_edit_of_id_zero_appends :
    (editNote { initialState false with
        notes := [⟨0, "a", "b", [], "1/1/1970, 12:00:00 AM", "1/1/1970, 12:00:00 AM", false⟩] }
      ⟨0, "a", "b", [], "1/1/1970, 12:00:00 AM", "1/1/1970, 12:00:00 AM", false⟩).editingId
      = some 0 ∧
    (addNote
      { editNote { initialState false with
          notes := [⟨0, "a", "b", [], "1/1/1970, 12:00:00 AM", "1/1/1970, 12:00:00 AM", false⟩] }
          ⟨0, "a", "b", [], "1/1/1970, 12:00:00 AM", "1/1/1970, 12:00:00 AM", false⟩
        with title := "t" }
      "11/14/2023, 10:13:20 PM" 1700000000000).notes =
      [⟨0, "a", "b", [], "1/1/1970, 12:00:00 AM", "1/1/1970, 12:00:00 AM", false⟩,
       ⟨1700000000000, "t", "b", [], "11/14/2023, 10:13:20 PM", "11/14/2023, 10:13:20 PM",
         false⟩] := by
  decide

/-- The update branch of `addNote`, reached for every non-zero editing id:
for every collection, every non-zero editing id carried by a note of the
collection, and every draft whose trimmed title or trimmed content is
non-empty, `addNote` yields a collection of the same length and order in
which each note with that id has the draft title, content and tags, its
original id, createdAt and isPinned, and updatedAt equal to the formatted
current time, and every note with a different id is unchanged. -/
theorem addNote_update_replaces (s : AppState) (formattedDate : String) (dateNow eid : Nat)
    (hid : s.editingId = some eid) (hnz : eid ≠ 0)
    (hmem : ∃ n ∈ s.notes, n.id = eid)
    (hnb : jsTrim s.title ≠ "" ∨ jsTrim s.content ≠ "") :
    (addNote s formattedDate dateNow).notes.length = s.notes.length ∧
    (∀ (i : Nat) (n : Note), s.notes[i]? = some n →
      (n.id = eid → (addNote s formattedDate dateNow).notes[i]? = some
        ({ id := n.id, title := s.title, content := s.content, tags := s.tags,
           createdAt := n.createdAt, updatedAt := formattedDate,
           isPinned := n.isPinned } : Note)) ∧
      (n.id ≠ eid → (addNote s formattedDate dateNow).notes[i]? = some n)) ∧
    (∃ m ∈ (addNote s formattedDate dateNow).notes,
      m.id = eid ∧ m.title = s.title ∧ m.content = s.content ∧ m.tags = s.tags ∧
      m.updatedAt = formattedDate) := by
  rw [addNote_update_branch s formattedDate dateNow eid hid hnz hnb]
  refine ⟨by simp, ?_, ?_⟩
  · intro i n hn
    constructor
    · intro he
      simp [List.getElem?_map, hn, he, updatedNote]
    · intro he
      simp [List.getElem?_map, hn, he]
  · obtain ⟨n, hn, he⟩ := hmem
    refine ⟨updatedNote s eid formattedDate n, ?_, rfl, rfl, rfl, rfl, rfl⟩
    simp only [List.mem_map]
    exact ⟨n, hn, by simp [he]⟩

theorem addNote_update_replaces_witness :
    (addNote (draftState [⟨7, "a", "b", [], "d", "d", true⟩, ⟨8, "c", "", [], "e", "e", false⟩]
      (some 7) "t" "" ["x"]) "now" 9).notes.length = 2 ∧
    (∀ (i : Nat) (n : Note), (draftState [⟨7, "a", "b", [], "d", "d", true⟩, ⟨8, "c", "", [], "e", "e", false⟩]
        (some 7) "t" "" ["x"]).notes[i]? = some n →
      (n.id = 7 → (addNote (draftState [⟨7, "a", "b", [], "d", "d", true⟩,
          ⟨8, "c", "", [], "e", "e", false⟩] (some 7) "t" "" ["x"]) "now" 9).notes[i]? = some
        ({ id := n.id, title := "t", content := "", tags := ["x"],
           createdAt := n.createdAt, updatedAt := "now",
           isPinned := n.isPinned } : Note)) ∧
      (n.id ≠ 7 → (addNote (draftState [⟨7, "a", "b", [], "d", "d", true⟩,
          ⟨8, "c", "", [], "e", "e", false⟩] (some 7) "t" "" ["x"]) "now" 9).notes[i]?
          = some n)) ∧
    (∃ m ∈ (addNote (draftState [⟨7, "a", "b", [], "d", "d", true⟩,
        ⟨8, "c", "", [], "e", "e", false⟩] (some 7) "t" "" ["x"]) "now" 9).notes,
      m.id = 7 ∧ m.title = "t" ∧ m.content = "" ∧ m.tags = ["x"] ∧ m.updatedAt = "now") :=
  addNote_update_replaces
    (draftState [⟨7, "a", "b", [], "d", "d", true⟩, ⟨8, "c", "", [], "e", "e", false⟩]
      (some 7) "t" "" ["x"]) "now" 9 7 rfl (by decide) (by decide) (by decide)

/-- C5 as stated fails: an update whose id no note carries, with a non-blank
title, does not signal any error; the call of `addNote` completes normally. -/
theorem addNote_missing_id_no_error :
    (∀ n ∈ [(⟨7, "a", "b", [], "d", "d", false⟩ : Note)], n.id ≠ 8) ∧
    jsTrim "t" ≠ "" ∧
    ¬ ∃ e, addNoteCompletion
      (draftState [⟨7, "a", "b", [], "d", "d", false⟩] (some 8) "t" "" []) "now" 9 =
        Completion.thrown e := by
  refine ⟨by decide, by decide, ?_⟩
  rintro ⟨e, h⟩
  simp [addNoteCompletion] at h

/-- C5 amended: for every collection and every non-zero id that no note of
the collection carries, an update with that id and a non-blank title or
content signals no error: `addNote` completes normally, the collection is
unchanged, the editing target is cleared, the draft is reset and the dialog
is closed. -/
theorem addNote_missing_id_silent (s : AppState) (formattedDate : String) (dateNow eid : Nat)
    (hid : s.editingId = some eid) (hnz : eid ≠ 0)
    (habs : ∀ n ∈ s.notes, n.id ≠ eid)
    (hnb : jsTrim s.title ≠ "" ∨ jsTrim s.content ≠ "") :
    addNoteCompletion s formattedDate dateNow =
      Completion.normal
        { s with editingId := none, title := "", content := "", tags := [],
                 openDialog := false } := by
  have hmap : s.notes.map (fun note =>
      if note.id = eid then updatedNote s eid formattedDate note else note) = s.notes := by
    conv_rhs => rw [← List.map_id s.notes]
    apply List.map_congr_left
    intro n hn
    simp [habs n hn]
  rw [addNoteCompletion, addNote_update_branch s formattedDate dateNow eid hid hnz hnb, hmap]

theorem addNote_missing_id_silent_witness :
    addNoteCompletion
      (draftState [⟨7, "a", "b", [], "d", "d", false⟩] (some 8) "t" "" ["x"]) "now" 9 =
      Completion.normal
        { draftState [⟨7, "a", "b", [], "d", "d", false⟩] (some 8) "t" "" ["x"] with
          editingId := none, title := "", content := "", tags := [], openDialog := false } :=
  addNote_missing_id_silent
    (draftState [⟨7, "a", "b", [], "d", "d", false⟩] (some 8) "t" "" ["x"]) "now" 9 8
    rfl (by decide) (by decide) (by decide)

/-! ## Uniqueness of ids -/

/-- C6: the code at the failing input. Two creates whose `Date.now()` reads
are the same millisecond get the same id, so the store reached holds two
notes with one id, where the claim requires all ids different; `deleteNote`
with that id then removes both notes. -/
theorem runOps_same_clock_read_shares_id :
    (runOps [StoreOp.create "a" "" [] "11/14/2023, 10:13:20 PM" 1700000000000,
             StoreOp.create "b" "" [] "11/14/2023, 10:13:20 PM" 1700000000000]).map
        (·.id) = [1700000000000, 1700000000000] ∧
    ¬ ((runOps [StoreOp.create "a" "" [] "11/14/2023, 10:13:20 PM" 1700000000000,
                StoreOp.create "b" "" [] "11/14/2023, 10:13:20 PM" 1700000000000]).map
        (·.id)).Nodup ∧
    runOps [StoreOp.create "a" "" [] "11/14/2023, 10:13:20 PM" 1700000000000,
            StoreOp.create "b" "" [] "11/14/2023, 10:13:20 PM" 1700000000000,
            StoreOp.delete 1700000000000] = [] := by
  decide

/-- The operations of the store never copy an id: update, delete and
togglePin keep or drop the ids they find, and a create adds the value it
reads from `Date.now()`. In every store reached by a sequence of operations
whose creating commits read pairwise different values, no two notes share
an id. -/
theorem runOps_ids_nodup (ops : List StoreOp)
    (hclock : (ops.filterMap allocatedId).Nodup) :
    ((runOps ops).map (·.id)).Nodup := by
  apply foldl_applyOp_nodup ops [] (by simp) hclock
  intro x hx
  simp at hx

theorem runOps_ids_nodup_witness :
    ([StoreOp.create "a" "" [] "d1" 5, StoreOp.create "b" "" [] "d2" 6,
      StoreOp.update 5 "c" "" ["x"] "d3" 6, StoreOp.togglePin 5,
      StoreOp.delete 6].filterMap allocatedId).Nodup ∧
    ((runOps [StoreOp.create "a" "" [] "d1" 5, StoreOp.create "b" "" [] "d2" 6,
      StoreOp.update 5 "c" "" ["x"] "d3" 6, StoreOp.togglePin 5,
      StoreOp.delete 6]).map (·.id)).Nodup :=
  ⟨by decide,
   runOps_ids_nodup [StoreOp.create "a" "" [] "d1" 5, StoreOp.create "b" "" [] "d2" 6,
      StoreOp.update 5 "c" "" ["x"] "d3" 6, StoreOp.togglePin 5,
      StoreOp.delete 6] (by decide)⟩

/-! ## View projection -/

/-- C2: the projected list `filteredNotes` contains a note of the collection
if and only if the lower-cased title or the lower-cased content of the note
contains the lower-cased query as a substring; the projection is a
permutation of the notes that pass this test, and for the empty query it is
a permutation of the whole collection. -/
theorem filteredNotes_contains_iff (rt : JsRuntime) (notes : List Note) (q : String) :
    (∀ n, n ∈ filteredNotes rt notes q ↔
      n ∈ notes ∧
        ((rt.toLowerCase q).data <:+: (rt.toLowerCase n.title).data ∨
         (rt.toLowerCase q).data <:+: (rt.toLowerCase n.content).data)) ∧
    (filteredNotes rt notes q).Perm (notes.filter (matchesSearch rt q)) ∧
    (filteredNotes rt notes "").Perm notes := by
  refine ⟨?_, perm_jsSort _ _, ?_⟩
  · intro n
    rw [mem_filteredNotes, matchesSearch_iff]
  · have hall : notes.filter (matchesSearch rt "") = notes :=
      List.filter_eq_self.2 (fun n _ => matchesSearch_empty rt n)
    have hp : (filteredNotes rt notes "").Perm (notes.filter (matchesSearch rt "")) :=
      perm_jsSort _ _
    rw [hall] at hp
    exact hp

/-- C3: the code at the failing input. Of three unpinned notes, the second
has a `createdAt` string the `Date` constructor does not read; the
comparator returns `NaN` for every pair with the second note, which the sort
takes for `0`, the three notes form one run and stay as they are, and the
note of 2020 is listed before the note of 2021, where the claim and the
comment `Then by date (newest first)` require the newer note first. -/
theorem filteredNotes_invalid_date_unsorted :
    filteredNotes sampleRuntime
      [⟨1, "x", "", [], "2020-01-01T00:00:00.000Z", "2020-01-01T00:00:00.000Z", false⟩,
       ⟨2, "n", "", [], "not a date", "not a date", false⟩,
       ⟨3, "y", "", [], "2021-01-01T00:00:00.000Z", "2021-01-01T00:00:00.000Z", false⟩] "" =
      [⟨1, "x", "", [], "2020-01-01T00:00:00.000Z", "2020-01-01T00:00:00.000Z", false⟩,
       ⟨2, "n", "", [], "not a date", "not a date", false⟩,
       ⟨3, "y", "", [], "2021-01-01T00:00:00.000Z", "2021-01-01T00:00:00.000Z", false⟩] ∧
    ¬ (pinnedFirst (filteredNotes sampleRuntime
      [⟨1, "x", "", [], "2020-01-01T00:00:00.000Z", "2020-01-01T00:00:00.000Z", false⟩,
       ⟨2, "n", "", [], "not a date", "not a date", false⟩,
       ⟨3, "y", "", [], "2021-01-01T00:00:00.000Z", "2021-01-01T00:00:00.000Z", false⟩] "") ∧
      newestFirstInGroups sampleRuntime (filteredNotes sampleRuntime
      [⟨1, "x", "", [], "2020-01-01T00:00:00.000Z", "2020-01-01T00:00:00.000Z", false⟩,
       ⟨2, "n", "", [], "not a date", "not a date", false⟩,
       ⟨3, "y", "", [], "2021-01-01T00:00:00.000Z", "2021-01-01T00:00:00.000Z", false⟩] "")) := by
  have hout : filteredNotes sampleRuntime
      [⟨1, "x", "", [], "2020-01-01T00:00:00.000Z", "2020-01-01T00:00:00.000Z", false⟩,
       ⟨2, "n", "", [], "not a date", "not a date", false⟩,
       ⟨3, "y", "", [], "2021-01-01T00:00:00.000Z", "2021-01-01T00:00:00.000Z", false⟩] "" =
      [⟨1, "x", "", [], "2020-01-01T00:00:00.000Z", "2020-01-01T00:00:00.000Z", false⟩,
       ⟨2, "n", "", [], "not a date", "not a date", false⟩,
       ⟨3, "y", "", [], "2021-01-01T00:00:00.000Z", "2021-01-01T00:00:00.000Z", false⟩] := by
    decide
  refine ⟨hout, ?_⟩
  rw [hout]
  rintro ⟨-, h⟩
  rw [newestFirstInGroups, List.pairwise_cons] at h
  have h13 := h.1 ⟨3, "y", "", [], "2021-01-01T00:00:00.000Z", "2021-01-01T00:00:00.000Z", false⟩
    (by simp) rfl 1577836800000 1609459200000 (by decide) (by decide)
  exact absurd h13 (by decide)

/-- The order of the projection where the dates are readable: for every
collection and every search query such that the `createdAt` string of every
note passing the filter is read by the `Date` constructor as a valid date,
every pinned note of the projected list comes before every unpinned note,
and among the pinned notes and among the unpinned notes the time values of
`createdAt` are in non-increasing order (newest first). -/
theorem filteredNotes_pinned_then_newest (rt : JsRuntime) (notes : List Note) (q : String)
    (hvalid : ∀ n ∈ notes, matchesSearch rt q n = true →
      (rt.dateValue n.createdAt).isSome = true) :
    pinnedFirst (filteredNotes rt notes q) ∧
    newestFirstInGroups rt (filteredNotes rt notes q) := by
  have hv : ∀ n ∈ filteredNotes rt notes q, (rt.dateValue n.createdAt).isSome = true :=
    fun n hn => hvalid n ((mem_filteredNotes rt notes q n).1 hn).1
      ((mem_filteredNotes rt notes q n).1 hn).2
  have hsorted : (filteredNotes rt notes q).Pairwise
      (fun a b => sortCompare (compareNotes rt) a b ≤ 0) :=
    pairwise_jsSort (compareNotes rt) (fun n => (rt.dateValue n.createdAt).isSome = true)
      (fun a b ha hb => compareNotes_anti rt a b ha hb)
      (fun a b c ha hb hc hab hbc => compareNotes_trans rt a b c ha hb hc hab hbc)
      (notes.filter (matchesSearch rt q))
      (fun y hy => hvalid y (List.mem_of_mem_filter hy) (List.mem_filter.1 hy).2)
  constructor
  · refine List.Pairwise.imp_of_mem ?_ hsorted
    intro a b ha hb hab hpin
    obtain ⟨ta, hta⟩ := Option.isSome_iff_exists.1 (hv a ha)
    obtain ⟨tb, htb⟩ := Option.isSome_iff_exists.1 (hv b hb)
    rw [sortCompare_compareNotes rt a b ta tb hta htb] at hab
    rcases hab with h | h
    · exact h.1
    · rw [h.1]; exact hpin
  · refine List.Pairwise.imp_of_mem ?_ hsorted
    intro a b ha hb hab hpin ta tb hta htb
    rw [sortCompare_compareNotes rt a b ta tb hta htb] at hab
    rcases hab with h | h
    · rw [h.1, h.2] at hpin
      exact absurd hpin (by decide)
    · exact h.2

theorem filteredNotes_pinned_then_newest_witness :
    (∀ n ∈ [(⟨1, "x", "", [], "2020-01-01T00:00:00.000Z", "2020-01-01T00:00:00.000Z", false⟩
        : Note),
       ⟨3, "y", "", [], "2021-01-01T00:00:00.000Z", "2021-01-01T00:00:00.000Z", false⟩,
       ⟨4, "z", "", [], "2020-01-01T00:00:00.000Z", "2020-01-01T00:00:00.000Z", true⟩],
      matchesSearch sampleRuntime "" n = true →
        (sampleRuntime.dateValue n.createdAt).isSome = true) ∧
    pinnedFirst (filteredNotes sampleRuntime
      [⟨1, "x", "", [], "2020-01-01T00:00:00.000Z", "2020-01-01T00:00:00.000Z", false⟩,
       ⟨3, "y", "", [], "2021-01-01T00:00:00.000Z", "2021-01-01T00:00:00.000Z", false⟩,
       ⟨4, "z", "", [], "2020-01-01T00:00:00.000Z", "2020-01-01T00:00:00.000Z", true⟩] "") ∧
    newestFirstInGroups sampleRuntime (filteredNotes sampleRuntime
      [⟨1, "x", "", [], "2020-01-01T00:00:00.000Z", "2020-01-01T00:00:00.000Z", false⟩,
       ⟨3, "y", "", [], "2021-01-01T00:00:00.000Z", "2021-01-01T00:00:00.000Z", false⟩,
       ⟨4, "z", "", [], "2020-01-01T00:00:00.000Z", "2020-01-01T00:00:00.000Z", true⟩] "") :=
  ⟨by decide,
   filteredNotes_pinned_then_newest sampleRuntime
      [⟨1, "x", "", [], "2020-01-01T00:00:00.000Z", "2020-01-01T00:00:00.000Z", false⟩,
       ⟨3, "y", "", [], "2021-01-01T00:00:00.000Z", "2021-01-01T00:00:00.000Z", false⟩,
       ⟨4, "z", "", [], "2020-01-01T00:00:00.000Z", "2020-01-01T00:00:00.000Z", true⟩] ""
      (by decide)⟩

end NotesApp
